import Mathlib

/-!
Shallow embedding of the data-driven styling engine of bigquery-geo-viz:
`StylesService.parseStyle` / scale cache (src/app/services/styles.service.ts),
the fill/line color composition in `MapComponent.updateStyles`
(src/app/map/map.component.ts), and the per-column statistics fold in
`BigQueryService.normalizeRows` (src/app/services/bigquery.service.ts).

JavaScript numbers are modelled as exact rationals plus NaN and the two
infinities (`JSNum`); JavaScript values flowing through the styling engine
(strings, numbers, null, undefined) as `JSVal`.  The d3 scale functions the
source instantiates (scaleOrdinal / scaleThreshold / scaleLinear, d3 v1/v2
era as depended on by the 2018 repository) are embedded with their library
semantics: ordinal key lookup with first-occurrence domain de-duplication
and an `unknown` fallback, threshold routing via `bisectRight`, and
piecewise linear interpolation (`bimap`/`polymap`) with per-channel RGB
interpolation for color range values.
-/

deriving instance DecidableEq for Except

attribute [local semireducible] Rat.add Rat.mul Rat.sub Rat.inv

namespace GeoViz

/-- A JavaScript number: an exact rational, NaN, or ±Infinity.  (JS has no
distinct -0 in any observation made by this code; we model a single zero.) -/
inductive JSNum where
  | rat (q : ℚ)
  | nan
  | inf
  | ninf
deriving DecidableEq, Repr

/-- A JavaScript value as it flows through the styling engine. -/
inductive JSVal where
  | str (s : String)
  | num (x : JSNum)
  | null
  | undefined
deriving DecidableEq, Repr

namespace JSNum

/-- JS `<`: false whenever NaN is involved. -/
def jsLt : JSNum → JSNum → Bool
  | rat a, rat b => a < b
  | nan, _ => false
  | _, nan => false
  | ninf, ninf => false
  | ninf, _ => true
  | _, inf => true
  | _, _ => false

/-- JS `<=`: false whenever NaN is involved. -/
def jsLe : JSNum → JSNum → Bool
  | rat a, rat b => a ≤ b
  | nan, _ => false
  | _, nan => false
  | ninf, _ => true
  | _, inf => true
  | inf, _ => false
  | _, ninf => false

/-- JS `>`. -/
def jsGt (a b : JSNum) : Bool := jsLt b a

def jsNeg : JSNum → JSNum
  | rat a => rat (-a)
  | nan => nan
  | inf => ninf
  | ninf => inf

def jsAdd : JSNum → JSNum → JSNum
  | rat a, rat b => rat (a + b)
  | nan, _ => nan
  | _, nan => nan
  | inf, ninf => nan
  | ninf, inf => nan
  | inf, _ => inf
  | _, inf => inf
  | ninf, _ => ninf
  | _, ninf => ninf

def jsSub (a b : JSNum) : JSNum := jsAdd a (jsNeg b)

def jsMul : JSNum → JSNum → JSNum
  | rat a, rat b => rat (a * b)
  | nan, _ => nan
  | _, nan => nan
  | inf, inf => inf
  | inf, ninf => ninf
  | ninf, inf => ninf
  | ninf, ninf => inf
  | inf, rat b => if 0 < b then inf else if b < 0 then ninf else nan
  | rat a, inf => if 0 < a then inf else if a < 0 then ninf else nan
  | ninf, rat b => if 0 < b then ninf else if b < 0 then inf else nan
  | rat a, ninf => if 0 < a then ninf else if a < 0 then inf else nan

def jsDiv : JSNum → JSNum → JSNum
  | rat a, rat b =>
      if b = 0 then (if 0 < a then inf else if a < 0 then ninf else nan)
      else rat (a / b)
  | nan, _ => nan
  | _, nan => nan
  | inf, inf => nan
  | inf, ninf => nan
  | ninf, inf => nan
  | ninf, ninf => nan
  | inf, rat b => if b < 0 then ninf else inf
  | ninf, rat b => if b < 0 then inf else ninf
  | rat _, inf => rat 0
  | rat _, ninf => rat 0

/-- JS `Math.max` on two arguments: NaN-absorbing. -/
def jsMax : JSNum → JSNum → JSNum
  | rat a, rat b => rat (max a b)
  | nan, _ => nan
  | _, nan => nan
  | inf, _ => inf
  | _, inf => inf
  | ninf, b => b
  | a, ninf => a

/-- JS `Math.min` on two arguments: NaN-absorbing. -/
def jsMin : JSNum → JSNum → JSNum
  | rat a, rat b => rat (min a b)
  | nan, _ => nan
  | _, nan => nan
  | ninf, _ => ninf
  | _, ninf => ninf
  | inf, b => b
  | a, inf => a

end JSNum

/-- JS `Math.round` on a rational: round half toward +∞. -/
def jsRoundQ (q : ℚ) : ℤ := ⌊q + 1 / 2⌋

/-- JS `Math.round` lifted to `JSNum` (NaN and infinities are fixed points). -/
def jsRound : JSNum → JSNum
  | .rat q => .rat (jsRoundQ q)
  | x => x

/-- Numeric value of a list of decimal digit characters. -/
def digitsVal (cs : List Char) : Nat :=
  cs.foldl (fun acc c => acc * 10 + (c.toNat - '0'.toNat)) 0

/-- Parse `[eE][+-]?digits` exponent suffix (or nothing). Returns the
exponent and requires the remainder to be empty. -/
def parseExpPart : List Char → Option ℤ
  | [] => some 0
  | c :: rest =>
      if c = 'e' ∨ c = 'E' then
        match rest with
        | '+' :: ds => if ds ≠ [] ∧ ds.all Char.isDigit then some (digitsVal ds) else none
        | '-' :: ds => if ds ≠ [] ∧ ds.all Char.isDigit then some (-(digitsVal ds : ℤ)) else none
        | ds => if ds ≠ [] ∧ ds.all Char.isDigit then some (digitsVal ds) else none
      else none

/-- Parse an unsigned decimal literal `digits ['.' digits] [exp]` or
`'.' digits [exp]`, as JS `Number` accepts. -/
def parseDecCore (cs : List Char) : Option ℚ :=
  let intPart := cs.takeWhile Char.isDigit
  let rest := cs.dropWhile Char.isDigit
  match rest with
  | '.' :: rest2 =>
      let fracPart := rest2.takeWhile Char.isDigit
      let rest3 := rest2.dropWhile Char.isDigit
      if intPart = [] ∧ fracPart = [] then none
      else
        match parseExpPart rest3 with
        | some e =>
            some (((digitsVal intPart : ℚ) + (digitsVal fracPart : ℚ) / (10 ^ fracPart.length : ℚ))
              * ((10 : ℚ) ^ e))
        | none => none
  | _ =>
      if intPart = [] then none
      else
        match parseExpPart rest with
        | some e => some ((digitsVal intPart : ℚ) * ((10 : ℚ) ^ e))
        | none => none

/-- Parse a signed decimal literal. -/
def parseDec : List Char → Option ℚ
  | '+' :: cs => parseDecCore cs
  | '-' :: cs => (parseDecCore cs).map (fun q => -q)
  | cs => parseDecCore cs

/-- JS whitespace as trimmed by string-to-number coercion and the CSS color
parser (the ASCII subset; exotic Unicode spaces do not occur in this
repository's data). -/
def isJsWs (c : Char) : Bool :=
  c = ' ' ∨ c = '\t' ∨ c = '\n' ∨ c = '\r' ∨ c = '\x0b' ∨ c = '\x0c'

/-- Trim leading and trailing whitespace of a character list. -/
def trimChars (cs : List Char) : List Char :=
  ((cs.dropWhile isJsWs).reverse.dropWhile isJsWs).reverse

/-- ASCII lower-casing of one character. -/
def lowerChar (c : Char) : Char :=
  if 'A' ≤ c ∧ c ≤ 'Z' then Char.ofNat (c.toNat + 32) else c

/-- JS `Number(string)`: trimmed empty string is 0, `Infinity` literals are
infinite, decimal literals parse exactly, anything else is NaN.  (Hex, octal
and binary literal forms are not produced by this repository's data paths
and are outside the modelled subset.) -/
def strToNum (s : String) : JSNum :=
  let t := trimChars s.toList
  if t = [] then .rat 0
  else if t = "Infinity".toList ∨ t = "+Infinity".toList then .inf
  else if t = "-Infinity".toList then .ninf
  else
    match parseDec t with
    | some q => .rat q
    | none => .nan

/-- JS `Number(value)` coercion (`ToNumber`). -/
def toNumber : JSVal → JSNum
  | .str s => strToNum s
  | .num x => x
  | .null => .rat 0
  | .undefined => .nan

/-- Exponent counting worker; the fuel only bounds the recursion depth
(`n` itself always suffices). -/
def pMultFuel : Nat → Nat → Nat → Nat
  | 0, _, _ => 0
  | fuel + 1, p, n => if 2 ≤ p ∧ 0 < n ∧ n % p = 0 then pMultFuel fuel p (n / p) + 1 else 0

/-- Exponent of prime `p` in `n` (0 when `p < 2` or `n = 0`). -/
def pMult (p n : Nat) : Nat := pMultFuel n p n

/-- Left-pad a string with zeros to length `k`. -/
def padZeros (s : String) (k : Nat) : String :=
  String.mk (List.replicate (k - s.length) '0') ++ s

/-- String form of a rational as JS renders the corresponding number:
integers render in full, and terminating decimals render exactly (these are
the only values JS numbers take; a rational with a denominator not of the
form 2^a·5^b has no JS counterpart and is rendered as a fraction). -/
def ratToString (q : ℚ) : String :=
  if q.den = 1 then toString q.num
  else
    let a := pMult 2 q.den
    let b := pMult 5 q.den
    let k := max a b
    if q.den = 2 ^ a * 5 ^ b then
      let m := q.num.natAbs * 10 ^ k / q.den
      (if q.num < 0 then "-" else "")
        ++ toString (m / 10 ^ k) ++ "." ++ padZeros (toString (m % 10 ^ k)) k
    else toString q.num ++ "/" ++ toString q.den

/-- JS `String(value)` coercion for the values the styling engine handles. -/
def jsToString : JSVal → String
  | .str s => s
  | .num (.rat q) => ratToString q
  | .num .nan => "NaN"
  | .num .inf => "Infinity"
  | .num .ninf => "-Infinity"
  | .null => "null"
  | .undefined => "undefined"

/-- Value of a hex digit character (lower case), if it is one. -/
def hexDigit? (c : Char) : Option Nat :=
  if '0' ≤ c ∧ c ≤ '9' then some (c.toNat - '0'.toNat)
  else if 'a' ≤ c ∧ c ≤ 'f' then some (c.toNat - 'a'.toNat + 10)
  else none

/-- Parse a list of hex digits to a number, failing on a non-digit. -/
def hexVal? (cs : List Char) : Option Nat :=
  cs.foldl (fun acc c => do (← acc) * 16 + (← hexDigit? c)) (some 0)

/-- Parse an optionally signed decimal integer (used for `rgb(…)` channel
components). -/
def intVal? (cs : List Char) : Option ℤ :=
  match cs with
  | '+' :: ds => if ds ≠ [] ∧ ds.all Char.isDigit then some (digitsVal ds) else none
  | '-' :: ds => if ds ≠ [] ∧ ds.all Char.isDigit then some (-(digitsVal ds : ℤ)) else none
  | ds => if ds ≠ [] ∧ ds.all Char.isDigit then some (digitsVal ds) else none

/-- Split a character list on commas (the group separator of the `rgb(…)`
form). -/
def splitComma : List Char → List (List Char)
  | [] => [[]]
  | ',' :: rest => [] :: splitComma rest
  | c :: rest =>
      match splitComma rest with
      | g :: gs => (c :: g) :: gs
      | [] => [[c]]

/-- The third-party `d3Color.color` CSS color parser, restricted to the
syntaxes this repository's styling paths produce and consume: `#rgb`,
`#rrggbb` hex forms and integer `rgb(r, g, b)` (the canonical form that
`String(color)` itself emits).  Case-insensitive, input trimmed, as in the
library.  Named colors and other CSS syntaxes are outside the modelled
subset and report as unrecognized. -/
def d3ColorParse (s : String) : Option (ℚ × ℚ × ℚ) :=
  let cs := (trimChars s.toList).map lowerChar
  match cs with
  | '#' :: rest =>
      match rest with
      | [a, b, c] => do
          let av ← hexDigit? a
          let bv ← hexDigit? b
          let cv ← hexDigit? c
          pure ((av * 17 : ℚ), (bv * 17 : ℚ), (cv * 17 : ℚ))
      | [a1, a2, b1, b2, c1, c2] => do
          let av ← hexVal? [a1, a2]
          let bv ← hexVal? [b1, b2]
          let cv ← hexVal? [c1, c2]
          pure ((av : ℚ), (bv : ℚ), (cv : ℚ))
      | _ => none
  | 'r' :: 'g' :: 'b' :: '(' :: rest =>
      if rest.getLast? = some ')' then
        match splitComma rest.dropLast with
        | [x, y, z] => do
            let xv ← intVal? (trimChars x)
            let yv ← intVal? (trimChars y)
            let zv ← intVal? (trimChars z)
            pure ((xv : ℚ), (yv : ℚ), (zv : ℚ))
        | _ => none
      else none
  | _ => none

/-- Format one RGB channel as `d3-color` does: `Math.max(0, Math.min(255,
Math.round(ch) || 0))` — NaN (modelled as `none`) becomes 0, otherwise round
and clamp to 0–255. -/
def chanFmt : Option ℚ → Nat
  | none => 0
  | some q => (max 0 (min 255 (jsRoundQ q))).toNat

/-- `String(color)` for an opaque RGB color: the `"rgb(r, g, b)"` canonical
form, channels rounded and clamped. -/
def formatRgbChans (r g b : Option ℚ) : String :=
  "rgb(" ++ toString (chanFmt r) ++ ", " ++ toString (chanFmt g) ++ ", "
    ++ toString (chanFmt b) ++ ")"

/-- `StyleRule` (styles.service.ts): one declarative rule per style
property. -/
structure StyleRule where
  isComputed : Bool
  value : String
  property : String
  function : String
  domain : List String
  range : List String
deriving DecidableEq, Repr

/-- `DEFAULT_STYLES` (styles.service.ts): the built-in default constant per
style property name; indexing with any other name yields `undefined` as in
JS. -/
def DEFAULT_STYLES : String → JSVal
  | "fillColor" => .str "#ff0000"
  | "fillOpacity" => .num (.rat 1)
  | "strokeColor" => .str "#000000"
  | "strokeOpacity" => .num (.rat 1)
  | "strokeWeight" => .num (.rat 1)
  | "circleRadius" => .num (.rat 5)
  | _ => .undefined

/-- `parseNumber = Number` (styles.service.ts). -/
def parseNumber (v : JSVal) : JSVal := .num (toNumber v)

/-- `parseColorString` (styles.service.ts): run the input through the CSS
color parser; a recognized color is canonicalized via `String(color)`, an
unrecognized one falls back to `DEFAULT_STYLES.fillColor` — the fill-color
default, whichever property the parse is for. -/
def parseColorString (v : JSVal) : JSVal :=
  match d3ColorParse (jsToString v) with
  | some (r, g, b) => .str (formatRgbChans (some r) (some g) (some b))
  | none => .str "#ff0000"

/-- `StyleProp` (styles.service.ts). -/
structure StyleProp where
  name : String
  type : String
  parse : JSVal → JSVal
  description : String

/-- `StyleProps` (styles.service.ts): the six style properties with their
semantic type and parse function. -/
def StyleProps : List StyleProp :=
  [ { name := "fillColor", type := "color", parse := parseColorString,
      description := "Fill color of a polygon or point." },
    { name := "fillOpacity", type := "number", parse := parseNumber,
      description := "Fill opacity of a polygon or point, in the range 0-1." },
    { name := "strokeColor", type := "color", parse := parseColorString,
      description := "Stroke/outline color of a polygon or line." },
    { name := "strokeOpacity", type := "number", parse := parseNumber,
      description := "Stroke/outline opacity of polygon or line, in the range 0-1." },
    { name := "strokeWeight", type := "number", parse := parseNumber,
      description := "Stroke/outline width, in pixels, of a polygon or line." },
    { name := "circleRadius", type := "number", parse := parseNumber,
      description := "Radius of the circle representing a point, in pixels." } ]

/-- A row: mapping from field names to values, as handed to the resolver. -/
def Row := List (String × JSVal)

/-- JS property read `row[key]`: `undefined` when the key is absent. -/
def rowGet (row : Row) (key : String) : JSVal :=
  match row.find? (fun kv => kv.1 == key) with
  | some kv => kv.2
  | none => .undefined

/-- `d3-array` `bisectRight` with the ascending comparator, exactly the
binary search the threshold and polylinear scales run: while `lo < hi`,
probe `mid` and move `hi` down when `a[mid] > x`, else `lo` past `mid`.
(A NaN comparison is false, so NaN entries send the search right, as in the
library.) -/
def bisectRightFuel : Nat → List JSNum → JSNum → Nat → Nat → Nat
  | 0, _, _, lo, _ => lo
  | fuel + 1, a, x, lo, hi =>
      if lo < hi then
        -- mid = lo + hi >>> 1
        if JSNum.jsGt (a.getD ((lo + hi) / 2) .nan) x then
          bisectRightFuel fuel a x lo ((lo + hi) / 2)
        else bisectRightFuel fuel a x ((lo + hi) / 2 + 1) hi
      else lo

/-- The `bisectRight` binary search (fuel `hi - lo` always suffices: the
interval shrinks every step). -/
def bisectRight (a : List JSNum) (x : JSNum) (lo hi : Nat) : Nat :=
  bisectRightFuel (hi - lo) a x lo hi

/-- First-occurrence de-duplication worker with the set of already seen
keys. -/
def dedupAux : List String → List String → List String
  | [], _ => []
  | x :: xs, seen =>
      if seen.contains x then dedupAux xs seen else x :: dedupAux xs (x :: seen)

/-- First-occurrence de-duplication of ordinal domain keys, as the
`scaleOrdinal` domain setter performs (later duplicates are skipped). -/
def dedupKeys (l : List String) : List String := dedupAux l []

/-- A constructed d3 scale, as stored in the `scaleCache`: the parameters
each branch of `parseStyle` passes to the scale constructor. -/
inductive Scale where
  | ordinal (domain : List String) (range : List JSVal) (unknown : JSVal)
  | threshold (domain : List JSNum) (range : List JSVal)
  | linear (domain : List JSNum) (range : List JSVal)
deriving DecidableEq, Repr

/-- d3 `normalize(a, b)` applied to `x`: the deinterpolation
`(x - a) / (b - a)`, degenerating to the constant ½ when `b - a` is zero
and to NaN when it is NaN. -/
def normApply (a b x : JSNum) : JSNum :=
  match JSNum.jsSub b a with
  | .nan => .nan
  | .rat d => if d = 0 then .rat (1 / 2) else JSNum.jsDiv (JSNum.jsSub x a) (.rat d)
  | d => JSNum.jsDiv (JSNum.jsSub x a) d

/-- d3 `interpolateNumber(a, b)` at `t`: `a + t * (b - a)`. -/
def interpNum (a b t : JSNum) : JSNum :=
  JSNum.jsAdd a (JSNum.jsMul t (JSNum.jsSub b a))

/-- `d3.rgb(a)` coercion of an interpolation endpoint: parse it as a color
when it is a string; any other value yields NaN channels (modelled `none`). -/
def d3RgbOfVal : JSVal → Option (ℚ × ℚ × ℚ)
  | .str s => d3ColorParse s
  | _ => none

/-- One channel of `interpolateRgb` at `t`: `a + t * (b - a)`; a NaN channel
or non-rational `t` yields NaN (modelled `none`, formatted as 0). -/
def chanInterp (a : Option ℚ) (b : ℚ) (t : JSNum) : Option ℚ :=
  match a, t with
  | some av, .rat tq => some (av + tq * (b - av))
  | _, _ => none

/-- d3 `interpolateValue(a, b)` at `t`, dispatching on the second endpoint
as the library does: null/undefined endpoints are constant, numbers
interpolate numerically, strings that parse as colors interpolate
per-channel in RGB.  (A non-color string range value cannot arise here:
every range value has been through a property parse, which yields numbers
or canonical color strings; that unreachable case returns the endpoint.) -/
def interpValue (a b : JSVal) (t : JSNum) : JSVal :=
  match b with
  | .null => .null
  | .undefined => .undefined
  | .num bn => .num (interpNum (toNumber a) bn t)
  | .str s =>
      match d3ColorParse s with
      | some (br, bg, bb) =>
          match d3RgbOfVal a with
          | some (ar, ag, ab) =>
              .str (formatRgbChans (chanInterp (some ar) br t)
                (chanInterp (some ag) bg t) (chanInterp (some ab) bb t))
          | none => .str (formatRgbChans none none none)
      | none => .str s

/-- d3 continuous-scale `bimap`: the two-point (single segment) linear map,
with orientation normalized so interpolation runs along the segment;
evaluation outside the domain extrapolates (no clamping). -/
def bimap (dom : List JSNum) (rng : List JSVal) (x : JSNum) : JSVal :=
  let d0 := dom.getD 0 .nan
  let d1 := dom.getD 1 .nan
  let r0 := rng.getD 0 .undefined
  let r1 := rng.getD 1 .undefined
  if JSNum.jsLt d1 d0 then interpValue r1 r0 (normApply d1 d0 x)
  else interpValue r0 r1 (normApply d0 d1 x)

/-- d3 continuous-scale `polymap`: the multi-segment piecewise linear map.
A descending domain reverses both lists; the segment is chosen by
`bisect(domain, x, 1, j) - 1`, so boundary segments extend to ±∞
(extrapolation, no clamping). -/
def polymap (dom : List JSNum) (rng : List JSVal) (x : JSNum) : JSVal :=
  let j := min dom.length rng.length - 1
  let dr := if JSNum.jsLt (dom.getD j .nan) (dom.getD 0 .nan)
    then (dom.reverse, rng.reverse) else (dom, rng)
  let i := bisectRight dr.1 x 1 j - 1
  interpValue (dr.2.getD i .undefined) (dr.2.getD (i + 1) .undefined)
    (normApply (dr.1.getD i .nan) (dr.1.getD (i + 1) .nan) x)

/-- d3 `scaleLinear` evaluation: `bimap` for two usable points, `polymap`
beyond. -/
def linearApply (dom : List JSNum) (rng : List JSVal) (x : JSNum) : JSVal :=
  if 2 < min dom.length rng.length then polymap dom rng x else bimap dom rng x

/-- Apply a constructed scale to an input value, per the scale's own d3
semantics. -/
def applyScale : Scale → JSVal → JSVal
  | .ordinal dom rng unk, v =>
      let key := jsToString v
      match dom.findIdx? (fun d => d == key) with
      | some i => rng.getD (i % rng.length) .undefined
      | none => unk
  | .threshold dom rng, v =>
      -- `scaleThreshold` guards with `x <= x`, so a NaN input yields
      -- `undefined`; the callers always pass `Number(…)`, so the input is a
      -- number and numeric coercion below is the identity.
      let x := toNumber v
      if x = .nan then .undefined
      else rng.getD (bisectRight dom x 0 (min dom.length (rng.length - 1))) .undefined
  | .linear dom rng, v => linearApply dom rng (toNumber v)

/-- The `scaleCache` of `StylesService`: a `Map` keyed by the `StyleRule`
object.  Object identity is modelled by a numeric instance id carried next
to the rule's contents. -/
def ScaleCache := List (Nat × Scale)

/-- `Map.get` on the scale cache. -/
def cacheGet (c : ScaleCache) (k : Nat) : Option Scale :=
  match c.find? (fun kv => kv.1 == k) with
  | some kv => some kv.2
  | none => none

/-- `Map.set` on the scale cache (the new binding shadows any older one). -/
def cacheSet (c : ScaleCache) (k : Nat) (s : Scale) : ScaleCache :=
  (k, s) :: c

/-- A `StyleRule` instance: the rule's contents plus the object identity the
cache keys on. -/
structure RuleRef where
  id : Nat
  rule : StyleRule
deriving DecidableEq, Repr

/-- `StylesService.parseStyle` (styles.service.ts, lines 139–197): resolve
one style property for one row under one rule.  Returns the resolved value
(or the thrown error, as `.error`) together with the scale cache after the
call.  The decision chain, in source order: static rules parse their literal
value or default; incomplete computed rules default; `identity` parses the
row value directly; `categorical` / `interval` / `linear` build (or fetch
cached) their d3 scale, store it, and apply it; any other function name
throws.  A missing property name only fails where the source dereferences
`prop.parse` (a JS `TypeError`). -/
def parseStyle (cache : ScaleCache) (propName : String) (row : Row) (ref : RuleRef) :
    Except String JSVal × ScaleCache :=
  let rule := ref.rule
  let prop? := StyleProps.find? (fun p => p.name == propName)
  let scale? := cacheGet cache ref.id
  if rule.isComputed = false then
    -- Static value.
    (if rule.value ≠ "" then
      match prop? with
      | some prop => .ok (prop.parse (.str rule.value))
      | none => .error "TypeError: cannot read parse of undefined"
     else .ok (DEFAULT_STYLES propName), cache)
  else if rule.property = "" ∨ rule.function = "" then
    -- Default value.
    (.ok (DEFAULT_STYLES propName), cache)
  else if rule.function = "identity" then
    -- Identity function.
    (match prop? with
     | some prop => .ok (prop.parse (rowGet row rule.property))
     | none => .error "TypeError: cannot read parse of undefined", cache)
  else if rule.function = "categorical" then
    -- Categorical function.
    match scale? with
    | some s => (.ok (applyScale s (rowGet row rule.property)), cache)
    | none =>
        match prop? with
        | none => (.error "TypeError: cannot read parse of undefined", cache)
        | some prop =>
            let s := Scale.ordinal (dedupKeys rule.domain)
              (rule.range.map (fun v => prop.parse (.str v))) (DEFAULT_STYLES propName)
            (.ok (applyScale s (rowGet row rule.property)), cacheSet cache ref.id s)
  else if rule.function = "interval" then
    -- Interval function.
    match scale? with
    | some s => (.ok (applyScale s (.num (toNumber (rowGet row rule.property)))), cache)
    | none =>
        match prop? with
        | none => (.error "TypeError: cannot read parse of undefined", cache)
        | some prop =>
            let s := Scale.threshold (rule.domain.map (fun v => strToNum v))
              (rule.range.map (fun v => prop.parse (.str v)) ++ [DEFAULT_STYLES propName])
            (.ok (applyScale s (.num (toNumber (rowGet row rule.property)))),
              cacheSet cache ref.id s)
  else if rule.function = "linear" then
    -- Linear function.
    match scale? with
    | some s => (.ok (applyScale s (.num (toNumber (rowGet row rule.property)))), cache)
    | none =>
        match prop? with
        | none => (.error "TypeError: cannot read parse of undefined", cache)
        | some prop =>
            let s := Scale.linear (rule.domain.map (fun v => strToNum v))
              (rule.range.map (fun v => prop.parse (.str v)))
            (.ok (applyScale s (.num (toNumber (rowGet row rule.property)))),
              cacheSet cache ref.id s)
  else
    (.error ("Unknown style rule function: " ++ rule.function), cache)

/-- `ColumnStat` (bigquery.service.ts): per-numeric-column running
aggregate. -/
structure ColumnStat where
  min : JSNum
  max : JSNum
  nulls : Nat
deriving DecidableEq, Repr

/-- The initial statistics state set up per numeric column in
`BigQueryService.query`: `{min: Infinity, max: -Infinity, nulls: 0}`. -/
def initStat : ColumnStat := { min := .inf, max := .ninf, nulls := 0 }

/-- `Math.round(x * 1000) / 1000`: the 3-decimal rounding `normalizeRows`
applies to min/max updates. -/
def round3 (x : JSNum) : JSNum :=
  JSNum.jsDiv (jsRound (JSNum.jsMul x (.rat 1000))) (.rat 1000)

/-- One numeric cell observed by `BigQueryService.normalizeRows`
(lines 227–236): a null or empty raw value increments `nulls`; otherwise
the value is parsed with `Number` and folded into `max`/`min` with
3-decimal rounding.  The raw cell is the BigQuery cell payload: a string,
or null. -/
def observeNumericCell (stat : ColumnStat) (v : Option String) : ColumnStat :=
  match v with
  | none => { stat with nulls := stat.nulls + 1 }
  | some s =>
      if s = "" then { stat with nulls := stat.nulls + 1 }
      else
        let x := strToNum s
        { stat with
          max := round3 (JSNum.jsMax stat.max x),
          min := round3 (JSNum.jsMin stat.min x) }

/-- Observing a batch of cells of one numeric column, in row order. -/
def observeNumericBatch (stat : ColumnStat) (vs : List (Option String)) : ColumnStat :=
  vs.foldl observeNumericCell stat

/-- The `/(\d+), (\d+), (\d+)/` match in `MapComponent.updateStyles`
followed by `.slice(1, 4).map(Number)`: extract the first three
comma-space-separated digit groups of a resolved color string.  On the
canonical `"rgb(r, g, b)"` color strings the styler produces this reads the
three channels; a string without such a group pattern (such as the raw hex
default `"#ff0000"`) matches null and the subsequent `.slice` throws. -/
def colorReMatch (s : String) : Option (List JSNum) :=
  -- Scan for the leftmost position where digits, ", ", digits, ", ", digits
  -- match, as the regex engine does.
  scanRe s.toList
where
  scanRe : List Char → Option (List JSNum)
    | [] => none
    | c :: rest =>
        match matchAt (c :: rest) with
        | some r => some r
        | none => scanRe rest
  matchAt (cs : List Char) : Option (List JSNum) :=
    let d1 := cs.takeWhile Char.isDigit
    let r1 := cs.dropWhile Char.isDigit
    if d1 = [] then none else
    match r1 with
    | ',' :: ' ' :: r2 =>
        let d2 := r2.takeWhile Char.isDigit
        let r3 := r2.dropWhile Char.isDigit
        if d2 = [] then none else
        match r3 with
        | ',' :: ' ' :: r4 =>
            let d3 := r4.takeWhile Char.isDigit
            if d3 = [] then none
            else some [.rat (digitsVal d1), .rat (digitsVal d2), .rat (digitsVal d3)]
        | _ => none
    | _ => none

/-- The per-feature style rule set handed to the map component: one rule
instance per style property name. -/
def StyleSet := String → RuleRef

/-- The `getFillColor` accessor of the deck.gl layer built in
`MapComponent.updateStyles` (map.component.ts, lines 216–221): resolve the
fill color, extract its RGB channels, resolve the fill opacity, and emit
`[...color, opacity * 256]`. -/
def getFillColor (styler : ScaleCache) (styles : StyleSet) (d : Row) :
    Except String (List JSNum) × ScaleCache :=
  let r1 := parseStyle styler "fillColor" d (styles "fillColor")
  match r1.1 with
  | .error e => (.error e, r1.2)
  | .ok colorVal =>
      let chans? : Except String (List JSNum) :=
        match colorVal with
        | .str s =>
            match colorReMatch s with
            | some l => .ok l
            | none => .error "TypeError: match is null"
        | _ => .error "TypeError: color is not iterable"
      match chans? with
      | .error e => (.error e, r1.2)
      | .ok chans =>
          let r2 := parseStyle r1.2 "fillOpacity" d (styles "fillOpacity")
          match r2.1 with
          | .error e => (.error e, r2.2)
          | .ok opVal =>
              (.ok (chans ++ [JSNum.jsMul (toNumber opVal) (.rat 256)]), r2.2)

/-- The threshold routing exactly as claim C2 words it — a reference
definition written from the claim text for comparison against the code, not
a translation of the code: breakpoints are the rule's domain coerced to
numbers and *sorted ascending*, the range is the parsed range values plus
one appended default bucket, and a value is routed to the bucket whose
lower bound is the greatest breakpoint ≤ the value (equivalently, bucket
index = number of breakpoints ≤ the value). -/
def claimedIntervalResolve (propName : String) (rule : StyleRule) (x : ℚ) : JSVal :=
  let qs := (rule.domain.map (fun s =>
    match strToNum s with
    | .rat q => q
    | _ => 0)).insertionSort (· ≤ ·)
  let rng := (match StyleProps.find? (fun p => p.name == propName) with
    | some prop => rule.range.map (fun v => prop.parse (.str v))
    | none => []) ++ [DEFAULT_STYLES propName]
  rng.getD (qs.countP (fun b => b ≤ x)) .undefined

/-- Index of the interpolation segment a linear scale uses for input `x`
over ascending breakpoints `qs`: the segment `[qs_i, qs_{i+1})` containing
`x`, with inputs below the first breakpoint on segment 0 and inputs at or
beyond the last breakpoint on the last segment (those two boundary segments
extend unboundedly — extrapolation).  Expressed through the count of
breakpoints ≤ `x`, clamped to the valid segment indices. -/
def segIdx (qs : List ℚ) (x : ℚ) : Nat :=
  min (max 1 (qs.countP (fun b => decide (b ≤ x)))) (qs.length - 1) - 1

/-- Piecewise-linear interpolation of range values `rs` over ascending
numeric breakpoints `qs` at input `x`, as claim C3 words it — the reference
mathematical notion the resolver is compared against: on the segment chosen
by `segIdx`, the straight line through `(qs_i, rs_i)` and
`(qs_{i+1}, rs_{i+1})`, evaluated at `x` without clamping (inputs outside
the domain extrapolate along the boundary segment's slope). -/
def piecewiseLinear (qs rs : List ℚ) (x : ℚ) : ℚ :=
  rs.getD (segIdx qs x) 0
    + (x - qs.getD (segIdx qs x) 0)
        / (qs.getD (segIdx qs x + 1) 0 - qs.getD (segIdx qs x) 0)
        * (rs.getD (segIdx qs x + 1) 0 - rs.getD (segIdx qs x) 0)

/-- The `getLineColor` accessor of the same layer (map.component.ts,
lines 222–227), over `strokeColor` / `strokeOpacity`. -/
def getLineColor (styler : ScaleCache) (styles : StyleSet) (d : Row) :
    Except String (List JSNum) × ScaleCache :=
  let r1 := parseStyle styler "strokeColor" d (styles "strokeColor")
  match r1.1 with
  | .error e => (.error e, r1.2)
  | .ok colorVal =>
      let chans? : Except String (List JSNum) :=
        match colorVal with
        | .str s =>
            match colorReMatch s with
            | some l => .ok l
            | none => .error "TypeError: match is null"
        | _ => .error "TypeError: color is not iterable"
      match chans? with
      | .error e => (.error e, r1.2)
      | .ok chans =>
          let r2 := parseStyle r1.2 "strokeOpacity" d (styles "strokeOpacity")
          match r2.1 with
          | .error e => (.error e, r2.2)
          | .ok opVal =>
              (.ok (chans ++ [JSNum.jsMul (toNumber opVal) (.rat 256)]), r2.2)

/-! ### Helper lemmas -/

theorem dedupAux_eq_self (l : List String) :
    ∀ seen : List String, l.Nodup → (∀ x ∈ l, x ∉ seen) → dedupAux l seen = l := by
  induction l with
  | nil => intro seen _ _; rfl
  | cons x xs ih =>
      intro seen hnd hs
      have hx : seen.contains x = false := by
        have := hs x (by simp)
        rw [Bool.eq_false_iff]
        intro hc
        exact this (by simpa using List.contains_iff_exists_mem_beq.mp hc)
      rw [dedupAux, hx]
      simp only [Bool.false_eq_true, if_false]
      congr 1
      refine ih (x :: seen) (List.nodup_cons.mp hnd).2 ?_
      intro y hy
      simp only [List.mem_cons, not_or]
      exact ⟨fun hyx => (List.nodup_cons.mp hnd).1 (hyx ▸ hy), hs y (List.mem_cons_of_mem _ hy)⟩

theorem dedupKeys_eq_self (l : List String) (hnd : l.Nodup) : dedupKeys l = l :=
  dedupAux_eq_self l [] hnd (by simp)

theorem cacheGet_cacheSet_self (c : ScaleCache) (k : Nat) (s : Scale) :
    cacheGet (cacheSet c k s) k = some s := by
  simp [cacheGet, cacheSet, List.find?]

/-! ### Claim theorems -/

/-- C4: for every style property, a non-computed rule resolves to the parse
of its literal value when that value is non-empty and to the property's
built-in default when it is empty; a computed rule whose `property` or
`function` is empty resolves to the built-in default.  In each case the
result does not depend on the row (the right-hand sides never mention it),
no error is raised (`\.ok`), and the scale cache is untouched. -/
theorem static_and_incomplete_rules_default
    (propName : String) (prop : StyleProp)
    (hfind : StyleProps.find? (fun p => p.name == propName) = some prop)
    (row : Row) (ref : RuleRef) (cache : ScaleCache) :
    (ref.rule.isComputed = false → ref.rule.value ≠ "" →
      parseStyle cache propName row ref = (.ok (prop.parse (.str ref.rule.value)), cache)) ∧
    (ref.rule.isComputed = false → ref.rule.value = "" →
      parseStyle cache propName row ref = (.ok (DEFAULT_STYLES propName), cache)) ∧
    (ref.rule.isComputed = true → (ref.rule.property = "" ∨ ref.rule.function = "") →
      parseStyle cache propName row ref = (.ok (DEFAULT_STYLES propName), cache)) := by
  refine ⟨fun hc hv => ?_, fun hc hv => ?_, fun hc hpf => ?_⟩
  · simp [parseStyle, hc, hv, hfind]
  · simp [parseStyle, hc, hv, hfind]
  · simp [parseStyle, hc, hpf, hfind]

/-- C4 witness: the empty static fill-color rule resolves to the fill-color
default for a concrete row. -/
theorem static_and_incomplete_rules_default_witness :
    parseStyle [] "fillColor" [("h", .str "x")]
        ⟨0, ⟨false, "", "", "", [], []⟩⟩
      = (.ok (DEFAULT_STYLES "fillColor"), []) :=
  (static_and_incomplete_rules_default "fillColor"
      ⟨"fillColor", "color", parseColorString, "Fill color of a polygon or point."⟩
      rfl [("h", .str "x")] ⟨0, ⟨false, "", "", "", [], []⟩⟩ []).2.1 rfl rfl

/-- C5: an identity rule resolves to the property's parse function applied
to the row's value of the rule's driving field, exactly; the rule's domain
and range play no role (any replacement of them yields the same result) and
the scale cache is left unchanged (no scale is built or stored). -/
theorem identity_rule_passthrough
    (propName : String) (prop : StyleProp)
    (hfind : StyleProps.find? (fun p => p.name == propName) = some prop)
    (row : Row) (ref : RuleRef) (cache : ScaleCache)
    (hc : ref.rule.isComputed = true) (hpr : ref.rule.property ≠ "")
    (hf : ref.rule.function = "identity") :
    parseStyle cache propName row ref
      = (.ok (prop.parse (rowGet row ref.rule.property)), cache) ∧
    (∀ d r : List String,
      parseStyle cache propName row ⟨ref.id, { ref.rule with domain := d, range := r }⟩
        = (.ok (prop.parse (rowGet row ref.rule.property)), cache)) := by
  constructor
  · simp [parseStyle, hc, hpr, hf, hfind]
  · intro d r
    simp [parseStyle, hc, hpr, hf, hfind]

/-- C5 witness: identity fill-opacity resolution of a concrete numeric row
value. -/
theorem identity_rule_passthrough_witness :
    parseStyle [] "fillOpacity" [("o", .str "0.5")]
        ⟨0, ⟨true, "", "o", "identity", ["a"], ["b"]⟩⟩
      = (.ok (parseNumber (rowGet [("o", .str "0.5")] "o")), []) :=
  (identity_rule_passthrough "fillOpacity"
      ⟨"fillOpacity", "number", parseNumber,
        "Fill opacity of a polygon or point, in the range 0-1."⟩
      rfl [("o", .str "0.5")] ⟨0, ⟨true, "", "o", "identity", ["a"], ["b"]⟩⟩ []
      rfl (by decide) rfl).1

/-- C6 counterexample: the claim quantifies over *every* function name
outside `{identity, categorical, interval, linear}`, but the empty function
name — which lies outside that set — does not fail: the incomplete-rule
branch returns the property's default, with no error. -/
theorem unknown_function_counterexample :
    (parseStyle [] "fillColor" [("h", .str "x")]
        ⟨0, ⟨true, "", "h", "", [], []⟩⟩).1
      = .ok (.str "#ff0000") := by decide

/-- C6 (amended): for every computed rule with non-empty `property` and a
*non-empty* function name outside `{identity, categorical, interval,
linear}`, resolution fails with the thrown error carrying the offending
function name — for any row, any style property name, and any cache state —
and never returns a default. -/
theorem unknown_function_errors
    (propName : String) (row : Row) (cache : ScaleCache) (ref : RuleRef)
    (hc : ref.rule.isComputed = true) (hpr : ref.rule.property ≠ "")
    (hne : ref.rule.function ∉
      (["", "identity", "categorical", "interval", "linear"] : List String)) :
    parseStyle cache propName row ref
      = (.error ("Unknown style rule function: " ++ ref.rule.function), cache) := by
  simp only [List.mem_cons, not_or] at hne
  obtain ⟨h0, h1, h2, h3, h4, -⟩ := hne
  simp [parseStyle, hc, hpr, h0, h1, h2, h3, h4]

/-- C6 witness: the reserved (disabled) `exponential` function name throws
the unknown-function error. -/
theorem unknown_function_errors_witness :
    parseStyle [] "strokeColor" [("h", .str "x")]
        ⟨0, ⟨true, "", "h", "exponential", [], []⟩⟩
      = (.error ("Unknown style rule function: " ++ "exponential"), []) :=
  unknown_function_errors "strokeColor" [("h", .str "x")] []
    ⟨0, ⟨true, "", "h", "exponential", [], []⟩⟩ rfl (by decide) (by decide)

/-- C7 (code bug per spec design note): the emitted alpha channel is
`opacity * 256`, not `round(opacity * 255)`.  At resolved opacity 1.0 both
the fill and the stroke quadruple carry alpha 256, which exceeds 255; the
claimed value `round(1.0 * 255)` is 255, and the two differ. -/
theorem alpha_channel_overflow :
    (getFillColor []
        (fun n => if n = "fillColor" then ⟨0, ⟨false, "#fff", "", "", [], []⟩⟩
          else ⟨1, ⟨false, "1.0", "", "", [], []⟩⟩) []).1
      = .ok [.rat 255, .rat 255, .rat 255, .rat 256] ∧
    (getLineColor []
        (fun n => if n = "strokeColor" then ⟨0, ⟨false, "#000", "", "", [], []⟩⟩
          else ⟨1, ⟨false, "1.0", "", "", [], []⟩⟩) []).1
      = .ok [.rat 0, .rat 0, .rat 0, .rat 256] ∧
    jsRoundQ ((1 : ℚ) * 255) = 255 ∧ (256 : ℚ) ≠ ((jsRoundQ ((1 : ℚ) * 255) : ℤ) : ℚ) ∧
    ¬ ((256 : ℚ) ≤ 255) := by
  refine ⟨by decide, by decide, by decide, by decide, by decide⟩

/-- C8: numeric column statistics.  A null or empty raw cell increments the
null count and leaves min/max alone; any other cell is parsed with `Number`
and folded into min/max with 3-decimal rounding; and from the initial state
(min = +∞, max = −∞, nulls = 0) the batch `[1, null, 3, -2]` yields
min = −2, max = 3, nulls = 1. -/
theorem column_stats_fold :
    (∀ stat : ColumnStat, observeNumericCell stat none
        = { stat with nulls := stat.nulls + 1 }) ∧
    (∀ stat : ColumnStat, observeNumericCell stat (some "")
        = { stat with nulls := stat.nulls + 1 }) ∧
    (∀ (stat : ColumnStat) (s : String), s ≠ "" →
      observeNumericCell stat (some s)
        = { stat with
              max := round3 (JSNum.jsMax stat.max (strToNum s)),
              min := round3 (JSNum.jsMin stat.min (strToNum s)) }) ∧
    observeNumericBatch initStat [some "1", none, some "3", some "-2"]
      = { min := .rat (-2), max := .rat 3, nulls := 1 } := by
  refine ⟨fun stat => rfl, fun stat => rfl, fun stat s hs => ?_, by decide⟩
  simp [observeNumericCell, hs]

/-- C8 witness: one non-empty cell folds into min/max as stated. -/
theorem column_stats_fold_witness :
    observeNumericCell initStat (some "7")
      = { initStat with
            max := round3 (JSNum.jsMax initStat.max (strToNum "7")),
            min := round3 (JSNum.jsMin initStat.min (strToNum "7")) } :=
  column_stats_fold.2.2.1 initStat "7" (by decide)

/-- C10: the shared color parser falls back to the *fill-color* default
`"#ff0000"` on any input outside the recognized color syntax; both
color-typed properties (`fillColor` and `strokeColor`) use this same parse
function, so an unparseable stroke color resolves to red rather than to the
stroke default `"#000000"` — shown both on the parser and end to end on a
static stroke-color rule. -/
theorem color_parse_red_fallback :
    (∀ s : String, d3ColorParse s = none → parseColorString (.str s) = .str "#ff0000") ∧
    DEFAULT_STYLES "fillColor" = .str "#ff0000" ∧
    DEFAULT_STYLES "strokeColor" = .str "#000000" ∧
    (∀ p ∈ StyleProps, p.type = "color" → p.parse = parseColorString) ∧
    (parseStyle [] "strokeColor" [] ⟨0, ⟨false, "blurb", "", "", [], []⟩⟩).1
      = .ok (.str "#ff0000") := by
  refine ⟨fun s hs => ?_, rfl, rfl, ?_, by decide⟩
  · simp [parseColorString, jsToString, hs]
  · intro p hp ht
    simp only [StyleProps, List.mem_cons, List.not_mem_nil, or_false] at hp
    rcases hp with h | h | h | h | h | h <;> subst h <;>
      first
        | rfl
        | exact absurd ht (by decide)

/-- C10 witness: a concrete unrecognizable string parses to red. -/
theorem color_parse_red_fallback_witness :
    parseColorString (.str "blurb") = .str "#ff0000" :=
  color_parse_red_fallback.1 "blurb" (by decide)

theorem getD_map_lt {α β : Type} (f : α → β) (l : List α) (i : Nat)
    (h : i < l.length) (d : α) (d' : β) :
    (l.map f).getD i d' = f (l.getD i d) := by
  rw [List.getD_eq_getElem?_getD, List.getD_eq_getElem?_getD, List.getElem?_map,
    List.getElem?_eq_getElem h]
  simp

/-- C1: a categorical rule (computed, non-empty property,
function `categorical`), resolved with a fresh cache entry under the
spec's rule invariants (distinct domain keys, `domain.length =
range.length`): when the row value's string key first matches the domain at
index `i` the result is the parse of the range entry at the same index, and
when it matches no domain entry the result is the property's built-in
default.  Conjoined: the end-to-end scenario — rows `h = Good / Poor /
Fair` against domain `[Poor, Fair, Good]`, range
`[#F44336, #FFC107, #4CAF50]` — resolves to the parses of `#4CAF50`,
`#F44336`, `#FFC107` respectively (canonically `rgb(76, 175, 80)`,
`rgb(244, 67, 54)`, `rgb(255, 193, 7)`). -/
theorem categorical_exact_match
    (propName : String) (prop : StyleProp)
    (hfind : StyleProps.find? (fun p => p.name == propName) = some prop)
    (row : Row) (cache : ScaleCache) (ref : RuleRef)
    (hc : ref.rule.isComputed = true) (hpr : ref.rule.property ≠ "")
    (hf : ref.rule.function = "categorical")
    (hnd : ref.rule.domain.Nodup)
    (hlen : ref.rule.domain.length = ref.rule.range.length)
    (hmiss : cacheGet cache ref.id = none) :
    (∀ i : Nat,
      ref.rule.domain.findIdx?
          (fun d => d == jsToString (rowGet row ref.rule.property)) = some i →
      (parseStyle cache propName row ref).1
        = .ok (prop.parse (.str (ref.rule.range.getD i "")))) ∧
    (ref.rule.domain.findIdx?
        (fun d => d == jsToString (rowGet row ref.rule.property)) = none →
      (parseStyle cache propName row ref).1 = .ok (DEFAULT_STYLES propName)) ∧
    ((parseStyle [] "fillColor" [("h", .str "Good")]
        ⟨1, ⟨true, "", "h", "categorical", ["Poor", "Fair", "Good"],
          ["#F44336", "#FFC107", "#4CAF50"]⟩⟩).1
      = .ok (parseColorString (.str "#4CAF50")) ∧
     (parseStyle [] "fillColor" [("h", .str "Poor")]
        ⟨1, ⟨true, "", "h", "categorical", ["Poor", "Fair", "Good"],
          ["#F44336", "#FFC107", "#4CAF50"]⟩⟩).1
      = .ok (parseColorString (.str "#F44336")) ∧
     (parseStyle [] "fillColor" [("h", .str "Fair")]
        ⟨1, ⟨true, "", "h", "categorical", ["Poor", "Fair", "Good"],
          ["#F44336", "#FFC107", "#4CAF50"]⟩⟩).1
      = .ok (parseColorString (.str "#FFC107")) ∧
     parseColorString (.str "#4CAF50") = .str "rgb(76, 175, 80)" ∧
     parseColorString (.str "#F44336") = .str "rgb(244, 67, 54)" ∧
     parseColorString (.str "#FFC107") = .str "rgb(255, 193, 7)") := by
  refine ⟨fun i hi => ?_, fun hnone => ?_,
    by decide, by decide, by decide, by decide, by decide, by decide⟩
  · have hilen : i < ref.rule.domain.length :=
      (List.findIdx?_eq_some_iff_findIdx_eq.mp hi).1
    have hirange : i < ref.rule.range.length := hlen ▸ hilen
    simp only [parseStyle, hc, hpr, hf, hfind, hmiss, applyScale,
      dedupKeys_eq_self _ hnd, hi]
    rw [List.length_map, Nat.mod_eq_of_lt hirange, getD_map_lt _ _ _ hirange ""]
    simp
  · simp only [parseStyle, hc, hpr, hf, hfind, hmiss, applyScale,
      dedupKeys_eq_self _ hnd, hnone]
    simp

/-- C1 witness: the general exact-match part applied to the claim's
concrete rule at row `h = Good` (match at index 2). -/
theorem categorical_exact_match_witness :
    (parseStyle [] "fillColor" [("h", .str "Good")]
        ⟨1, ⟨true, "", "h", "categorical", ["Poor", "Fair", "Good"],
          ["#F44336", "#FFC107", "#4CAF50"]⟩⟩).1
      = .ok (parseColorString (.str
          ((["#F44336", "#FFC107", "#4CAF50"] : List String).getD 2 ""))) :=
  (categorical_exact_match "fillColor"
      ⟨"fillColor", "color", parseColorString, "Fill color of a polygon or point."⟩
      rfl [("h", .str "Good")]
      [] ⟨1, ⟨true, "", "h", "categorical", ["Poor", "Fair", "Good"],
        ["#F44336", "#FFC107", "#4CAF50"]⟩⟩
      rfl (by decide) rfl (by decide) (by decide) rfl).1 2 (by decide)

/-- C9: for a computed rule using `categorical`, `interval` or `linear`
with no cached scale, the first resolve call stores the constructed scale
in the cache keyed by the rule instance, and a second resolve call with the
same rule instance returns exactly the first call's value and cache —
i.e. it reuses the cached scale without rebuilding or restoring. -/
theorem scale_cache_reuse
    (propName : String) (prop : StyleProp)
    (hfind : StyleProps.find? (fun p => p.name == propName) = some prop)
    (row : Row) (cache : ScaleCache) (ref : RuleRef)
    (hc : ref.rule.isComputed = true) (hpr : ref.rule.property ≠ "")
    (hf : ref.rule.function = "categorical" ∨ ref.rule.function = "interval" ∨
      ref.rule.function = "linear")
    (hmiss : cacheGet cache ref.id = none) :
    (∃ s : Scale, cacheGet (parseStyle cache propName row ref).2 ref.id = some s) ∧
    parseStyle (parseStyle cache propName row ref).2 propName row ref
      = parseStyle cache propName row ref := by
  rcases hf with hf | hf | hf
  · have hstep : parseStyle cache propName row ref
        = (.ok (applyScale
            (Scale.ordinal (dedupKeys ref.rule.domain)
              (ref.rule.range.map (fun v => prop.parse (.str v)))
              (DEFAULT_STYLES propName))
            (rowGet row ref.rule.property)),
          cacheSet cache ref.id
            (Scale.ordinal (dedupKeys ref.rule.domain)
              (ref.rule.range.map (fun v => prop.parse (.str v)))
              (DEFAULT_STYLES propName))) := by
      simp [parseStyle, hc, hpr, hf, hfind, hmiss]
    rw [hstep]
    refine ⟨⟨_, cacheGet_cacheSet_self _ _ _⟩, ?_⟩
    simp [parseStyle, hc, hpr, hf, hfind, cacheGet_cacheSet_self]
  · have hstep : parseStyle cache propName row ref
        = (.ok (applyScale
            (Scale.threshold (ref.rule.domain.map (fun v => strToNum v))
              (ref.rule.range.map (fun v => prop.parse (.str v))
                ++ [DEFAULT_STYLES propName]))
            (.num (toNumber (rowGet row ref.rule.property)))),
          cacheSet cache ref.id
            (Scale.threshold (ref.rule.domain.map (fun v => strToNum v))
              (ref.rule.range.map (fun v => prop.parse (.str v))
                ++ [DEFAULT_STYLES propName]))) := by
      simp [parseStyle, hc, hpr, hf, hfind, hmiss]
    rw [hstep]
    refine ⟨⟨_, cacheGet_cacheSet_self _ _ _⟩, ?_⟩
    simp [parseStyle, hc, hpr, hf, hfind, cacheGet_cacheSet_self]
  · have hstep : parseStyle cache propName row ref
        = (.ok (applyScale
            (Scale.linear (ref.rule.domain.map (fun v => strToNum v))
              (ref.rule.range.map (fun v => prop.parse (.str v))))
            (.num (toNumber (rowGet row ref.rule.property)))),
          cacheSet cache ref.id
            (Scale.linear (ref.rule.domain.map (fun v => strToNum v))
              (ref.rule.range.map (fun v => prop.parse (.str v))))) := by
      simp [parseStyle, hc, hpr, hf, hfind, hmiss]
    rw [hstep]
    refine ⟨⟨_, cacheGet_cacheSet_self _ _ _⟩, ?_⟩
    simp [parseStyle, hc, hpr, hf, hfind, cacheGet_cacheSet_self]

theorem countP_boundary (qs : List ℚ) (p : ℚ → Bool) :
    ∀ r : Nat, r ≤ qs.length →
      (∀ i (h : i < qs.length), i < r → p qs[i]) →
      (∀ i (h : i < qs.length), r ≤ i → ¬ p qs[i]) →
      qs.countP p = r := by
  induction qs with
  | nil =>
      intro r hr _ _
      simp only [List.length_nil, Nat.le_zero] at hr
      simp [hr]
  | cons a as ih =>
      intro r hr h1 h2
      match r with
      | 0 =>
          have ha : ¬ p a := by simpa using h2 0 (by simp) (Nat.zero_le 0)
          have has : as.countP p = 0 := by
            refine ih 0 (Nat.zero_le _) (by omega) ?_
            intro i h _
            simpa using h2 (i + 1) (by simpa using Nat.succ_lt_succ h) (Nat.zero_le _)
          simp [List.countP_cons, has, ha]
      | r' + 1 =>
          have ha : p a := by simpa using h1 0 (by simp) (Nat.succ_pos r')
          have has : as.countP p = r' := by
            refine ih r' (by simpa using Nat.lt_succ_iff.mp hr) ?_ ?_
            · intro i h hir
              simpa using h1 (i + 1) (by simpa using Nat.succ_lt_succ h)
                (Nat.succ_lt_succ hir)
            · intro i h hir
              simpa using h2 (i + 1) (by simpa using Nat.succ_lt_succ h)
                (Nat.succ_le_succ hir)
          simp [List.countP_cons, has, ha]

theorem getD_map_rat (qs : List ℚ) (i : Nat) (h : i < qs.length) :
    (qs.map JSNum.rat).getD i .nan = .rat qs[i] := by
  rw [List.getD_eq_getElem?_getD, List.getElem?_map, List.getElem?_eq_getElem h]
  rfl

/-- The d3 binary search agrees with the ≤-count on an ascending breakpoint
list: `bisectRight` over the window `[lo, hi)` returns the count of
breakpoints ≤ the probe, given the invariant that everything left of `lo`
is ≤ it and everything from `hi` on is greater. -/
theorem bisectRightFuel_sorted_count (qs : List ℚ)
    (hs : List.Pairwise (· ≤ ·) qs) (q : ℚ) :
    ∀ (fuel lo hi : Nat), hi - lo ≤ fuel → hi ≤ qs.length → lo ≤ hi →
      (∀ i (h : i < qs.length), i < lo → qs[i] ≤ q) →
      (∀ i (h : i < qs.length), hi ≤ i → q < qs[i]) →
      bisectRightFuel fuel (qs.map .rat) (.rat q) lo hi
        = qs.countP (fun b => decide (b ≤ q)) := by
  have hpw := List.pairwise_iff_getElem.mp hs
  intro fuel
  induction fuel with
  | zero =>
      intro lo hi hfuel hlen hlh h1 h2
      have heq : lo = hi := by omega
      subst heq
      exact (countP_boundary qs _ lo (by omega)
        (fun i h hil => by simpa using h1 i h hil)
        (fun i h hil => by
          intro hp
          exact absurd (by simpa using hp) (not_le.mpr (h2 i h hil)))).symm
  | succ fuel ih =>
      intro lo hi hfuel hlen hlh h1 h2
      rw [bisectRightFuel]
      by_cases hlt : lo < hi
      · rw [if_pos hlt]
        have hmlt : (lo + hi) / 2 < hi := by omega
        have hmge : lo ≤ (lo + hi) / 2 := by omega
        have hmlen : (lo + hi) / 2 < qs.length := by omega
        rw [getD_map_rat qs _ hmlen]
        by_cases hcmp : q < qs[(lo + hi) / 2]
        · simp only [JSNum.jsGt, JSNum.jsLt, decide_eq_true_eq, if_pos hcmp]
          refine ih lo ((lo + hi) / 2) (by omega) (by omega) hmge h1 ?_
          intro i h hge
          rcases Nat.eq_or_lt_of_le hge with heq | hlt2
          · exact heq ▸ hcmp
          · exact hcmp.trans_le (hpw ((lo + hi) / 2) i hmlen h hlt2)
        · simp only [JSNum.jsGt, JSNum.jsLt, decide_eq_true_eq, if_neg hcmp]
          refine ih ((lo + hi) / 2 + 1) hi (by omega) hlen (by omega) ?_ h2
          intro i h hlt2
          have hile : i ≤ (lo + hi) / 2 := by omega
          rcases Nat.eq_or_lt_of_le hile with heq | hlt3
          · simpa [heq] using not_lt.mp hcmp
          · exact (hpw i ((lo + hi) / 2) h hmlen hlt3).trans (not_lt.mp hcmp)
      · rw [if_neg hlt]
        have heq : lo = hi := by omega
        subst heq
        exact (countP_boundary qs _ lo (by omega)
          (fun i h hil => by simpa using h1 i h hil)
          (fun i h hil => by
            intro hp
            exact absurd (by simpa using hp) (not_le.mpr (h2 i h hil)))).symm

theorem bisectRight_sorted_count (qs : List ℚ)
    (hs : List.Pairwise (· ≤ ·) qs) (q : ℚ) :
    bisectRight (qs.map .rat) (.rat q) 0 qs.length
      = qs.countP (fun b => decide (b ≤ q)) := by
  refine bisectRightFuel_sorted_count qs hs q (qs.length - 0) 0 qs.length
    (Nat.le_refl _) (Nat.le_refl _) (Nat.zero_le _) (by omega) (by omega)

theorem getD_lt {α : Type} (l : List α) (i : Nat) (h : i < l.length) (d : α) :
    l.getD i d = l[i] := by
  rw [List.getD_eq_getElem?_getD, List.getElem?_eq_getElem h]
  rfl

theorem countP_le_bound (qs : List ℚ) (p : ℚ → Bool) :
    ∀ r : Nat, (∀ i (h : i < qs.length), r ≤ i → ¬ p qs[i]) → qs.countP p ≤ r := by
  induction qs with
  | nil => intro r _; simp
  | cons a as ih =>
      intro r h
      match r with
      | 0 =>
          have hall : ∀ b ∈ a :: as, ¬ p b := by
            intro b hb
            obtain ⟨i, hi, hbe⟩ := List.getElem_of_mem hb
            exact hbe ▸ h i hi (Nat.zero_le i)
          simp [List.countP_eq_zero.mpr hall]
      | r' + 1 =>
          have has : as.countP p ≤ r' := by
            refine ih r' ?_
            intro i hi hri
            simpa using h (i + 1) (by simpa using Nat.succ_lt_succ hi)
              (Nat.succ_le_succ hri)
          rw [List.countP_cons]
          by_cases hpa : p a <;> simp [hpa] <;> omega

theorem countP_ge_bound (qs : List ℚ) (p : ℚ → Bool) :
    ∀ r : Nat, r ≤ qs.length → (∀ i (h : i < qs.length), i < r → p qs[i]) →
      r ≤ qs.countP p := by
  induction qs with
  | nil => intro r hr _; simpa using hr
  | cons a as ih =>
      intro r hr h
      match r with
      | 0 => exact Nat.zero_le _
      | r' + 1 =>
          have ha : p a := by simpa using h 0 (by simp) (Nat.succ_pos r')
          have has : r' ≤ as.countP p := by
            refine ih r' (by simpa using Nat.succ_le_succ_iff.mp hr) ?_
            intro i hi hir
            simpa using h (i + 1) (by simpa using Nat.succ_lt_succ hi)
              (Nat.succ_lt_succ hir)
          rw [List.countP_cons]
          simp only [ha, if_true]
          omega

/-- The d3 binary search over a sub-window `[lo, hi)` of an ascending
breakpoint list returns the ≤-count clamped to the window — the general
form needed for `polymap`'s `bisect(domain, x, 1, j)`. -/
theorem bisectRightFuel_sorted_clamp (qs : List ℚ)
    (hs : List.Pairwise (· ≤ ·) qs) (q : ℚ) :
    ∀ (fuel lo hi : Nat), hi - lo ≤ fuel → hi ≤ qs.length → lo ≤ hi →
      bisectRightFuel fuel (qs.map .rat) (.rat q) lo hi
        = min (max lo (qs.countP (fun b => decide (b ≤ q)))) hi := by
  have hpw := List.pairwise_iff_getElem.mp hs
  intro fuel
  induction fuel with
  | zero =>
      intro lo hi hfuel hlen hlh
      have heq : lo = hi := by omega
      subst heq
      rw [bisectRightFuel]
      omega
  | succ fuel ih =>
      intro lo hi hfuel hlen hlh
      rw [bisectRightFuel]
      by_cases hlt : lo < hi
      · rw [if_pos hlt]
        have hmlt : (lo + hi) / 2 < hi := by omega
        have hmge : lo ≤ (lo + hi) / 2 := by omega
        have hmlen : (lo + hi) / 2 < qs.length := by omega
        rw [getD_map_rat qs _ hmlen]
        by_cases hcmp : q < qs[(lo + hi) / 2]
        · simp only [JSNum.jsGt, JSNum.jsLt, decide_eq_true_eq, if_pos hcmp]
          rw [ih lo ((lo + hi) / 2) (by omega) (by omega) hmge]
          have hcle : qs.countP (fun b => decide (b ≤ q)) ≤ (lo + hi) / 2 := by
            refine countP_le_bound qs _ _ ?_
            intro i hilen hge
            simp only [decide_eq_true_eq, not_le]
            rcases Nat.eq_or_lt_of_le hge with heq2 | hlt2
            · subst heq2
              exact hcmp
            · exact hcmp.trans_le (hpw _ _ hmlen hilen hlt2)
          omega
        · simp only [JSNum.jsGt, JSNum.jsLt, decide_eq_true_eq, if_neg hcmp]
          rw [ih ((lo + hi) / 2 + 1) hi (by omega) hlen (by omega)]
          have hcge : (lo + hi) / 2 + 1 ≤ qs.countP (fun b => decide (b ≤ q)) := by
            refine countP_ge_bound qs _ _ (by omega) ?_
            intro i hilen hle2
            simp only [decide_eq_true_eq]
            have hile : i ≤ (lo + hi) / 2 := by omega
            rcases Nat.eq_or_lt_of_le hile with heq2 | hlt2
            · subst heq2
              exact not_lt.mp hcmp
            · exact (hpw i _ hilen hmlen hlt2).trans (not_lt.mp hcmp)
          omega
      · rw [if_neg hlt]
        omega

theorem bisectRight_sorted_clamp (qs : List ℚ)
    (hs : List.Pairwise (· ≤ ·) qs) (q : ℚ) (lo hi : Nat)
    (hlen : hi ≤ qs.length) (hlh : lo ≤ hi) :
    bisectRight (qs.map .rat) (.rat q) lo hi
      = min (max lo (qs.countP (fun b => decide (b ≤ q)))) hi :=
  bisectRightFuel_sorted_clamp qs hs q (hi - lo) lo hi (Nat.le_refl _) hlen hlh

theorem segIdx_add_one_lt (qs : List ℚ) (x : ℚ) (h2 : 2 ≤ qs.length) :
    segIdx qs x + 1 < qs.length := by
  unfold segIdx
  omega

/-- Segment selection of the embedded `scaleLinear`: on a strictly
ascending numeric domain of length ≥ 2 (and a matching-length range),
evaluation at a numeric input is the d3 interpolator applied on the
`segIdx` segment with the deinterpolated parameter
`(x - qs_i) / (qs_{i+1} - qs_i)` — for both the two-point `bimap` and the
multi-segment `polymap` paths. -/
theorem linearApply_segment (qs : List ℚ) (rs : List JSVal) (x : ℚ)
    (hsort : List.Pairwise (· < ·) qs) (hlen : rs.length = qs.length)
    (h2 : 2 ≤ qs.length) :
    linearApply (qs.map .rat) rs (.rat x)
      = interpValue (rs.getD (segIdx qs x) .undefined)
          (rs.getD (segIdx qs x + 1) .undefined)
          (.rat ((x - qs.getD (segIdx qs x) 0) /
            (qs.getD (segIdx qs x + 1) 0 - qs.getD (segIdx qs x) 0))) := by
  have hpw := List.pairwise_iff_getElem.mp hsort
  have hle : List.Pairwise (· ≤ ·) qs := hsort.imp (fun h => le_of_lt h)
  have hseg1 : segIdx qs x + 1 < qs.length := segIdx_add_one_lt qs x h2
  have hseg0 : segIdx qs x < qs.length := by omega
  have hqi : qs.getD (segIdx qs x) 0 = qs[segIdx qs x] := getD_lt _ _ hseg0 _
  have hqj : qs.getD (segIdx qs x + 1) 0 = qs[segIdx qs x + 1] :=
    getD_lt _ _ hseg1 _
  have hij : qs[segIdx qs x] < qs[segIdx qs x + 1] :=
    hpw _ _ hseg0 hseg1 (Nat.lt_succ_self _)
  have hne1 : ¬(qs[segIdx qs x + 1] + -qs[segIdx qs x] = 0) := by
    intro hz
    exact absurd hij (by rw [show qs[segIdx qs x + 1] = qs[segIdx qs x] by linarith]; simp)
  have hminl : min (qs.map JSNum.rat).length rs.length = qs.length := by
    simp [hlen]
  rw [linearApply]
  by_cases h3 : 2 < qs.length
  · rw [if_pos (by rw [hminl]; exact h3)]
    rw [polymap, hminl]
    have h0len : 0 < qs.length := by omega
    have hjlen : qs.length - 1 < qs.length := by omega
    have hrev : JSNum.jsLt ((qs.map JSNum.rat).getD (qs.length - 1) .nan)
        ((qs.map JSNum.rat).getD 0 .nan) = false := by
      rw [getD_map_rat qs _ hjlen, getD_map_rat qs _ h0len]
      simp only [JSNum.jsLt, decide_eq_false_iff_not, not_lt]
      exact le_of_lt (hpw 0 (qs.length - 1) h0len hjlen (by omega))
    simp only [hrev, Bool.false_eq_true, if_false]
    have hbis : bisectRight (qs.map JSNum.rat) (.rat x) 1 (qs.length - 1) - 1
        = segIdx qs x := by
      rw [bisectRight_sorted_clamp qs hle x 1 (qs.length - 1) (by omega) (by omega)]
      rfl
    rw [hbis, getD_map_rat qs _ hseg0, getD_map_rat qs _ hseg1]
    simp only [normApply, JSNum.jsSub, JSNum.jsNeg, JSNum.jsAdd, if_neg hne1,
      JSNum.jsDiv]
    rw [hqi, hqj, sub_eq_add_neg, sub_eq_add_neg]
  · have hn2 : qs.length = 2 := by omega
    have hs0 : segIdx qs x = 0 := by unfold segIdx; omega
    rw [if_neg (by rw [hminl]; omega)]
    rw [bimap]
    have h0len : 0 < qs.length := by omega
    have h1len : 1 < qs.length := by omega
    rw [getD_map_rat qs 0 h0len, getD_map_rat qs 1 h1len]
    have hrev : JSNum.jsLt (JSNum.rat qs[1]) (JSNum.rat qs[0]) = false := by
      simp only [JSNum.jsLt, decide_eq_false_iff_not, not_lt]
      exact le_of_lt (hpw 0 1 h0len h1len (by omega))
    simp only [hrev, Bool.false_eq_true, if_false]
    have hij2 : qs[0] < qs[1] := hpw 0 1 h0len h1len (by omega)
    have hne2 : ¬(qs[1] + -qs[0] = 0) := by
      intro hz
      exact absurd hij2 (by rw [show qs[1] = qs[0] by linarith]; simp)
    simp only [normApply, JSNum.jsSub, JSNum.jsNeg, JSNum.jsAdd, if_neg hne2,
      JSNum.jsDiv]
    simp only [hs0, Nat.zero_add]
    rw [getD_lt qs 0 h0len, getD_lt qs 1 h1len, sub_eq_add_neg, sub_eq_add_neg]

/-- C2 counterexample: the code passes `rule.domain.map(Number)` to the
threshold scale *without sorting*.  For the interval rule with domain
`["20", "10"]` (not ascending) and range `["#111", "#222"]`, the claimed
sorted-breakpoint routing sends value 15 to the `#222` bucket
(canonically `rgb(34, 34, 34)`), but the code — bisecting the unsorted
list `[20, 10]` — lands in the appended default bucket and returns
`"#ff0000"`. -/
theorem interval_unsorted_counterexample :
    (parseStyle [] "fillColor" [("v", .str "15")]
        ⟨0, ⟨true, "", "v", "interval", ["20", "10"], ["#111", "#222"]⟩⟩).1
      = .ok (.str "#ff0000") ∧
    claimedIntervalResolve "fillColor"
        ⟨true, "", "v", "interval", ["20", "10"], ["#111", "#222"]⟩ 15
      = .str "rgb(34, 34, 34)" ∧
    (JSVal.str "#ff0000") ≠ .str "rgb(34, 34, 34)" :=
  ⟨by decide, by decide, by decide⟩

/-- C2 (amended): the scale's breakpoints are `rule.domain` coerced to
numbers *in the given order* (no sorting).  When that coerced list is
ascending, a numeric row value is routed to the bucket indexed by the
number of breakpoints ≤ the value — the bucket whose lower bound is the
greatest breakpoint ≤ the value, with values below the smallest breakpoint
in the first bucket — over the parsed range plus one appended default
bucket.  Conjoined: domain `[10, 20]`, range `[#111, #222]` routes 5 to the
parse of `#111`, 15 to the parse of `#222`, and 25 to the raw default
`"#ff0000"`. -/
theorem interval_threshold_routing
    (propName : String) (prop : StyleProp)
    (hfind : StyleProps.find? (fun p => p.name == propName) = some prop)
    (row : Row) (cache : ScaleCache) (ref : RuleRef)
    (hc : ref.rule.isComputed = true) (hpr : ref.rule.property ≠ "")
    (hf : ref.rule.function = "interval")
    (hmiss : cacheGet cache ref.id = none)
    (qs : List ℚ)
    (hdom : ref.rule.domain.map (fun v => strToNum v) = qs.map .rat)
    (hsort : qs.Pairwise (· ≤ ·))
    (hlen : ref.rule.domain.length = ref.rule.range.length)
    (xq : ℚ) (hx : toNumber (rowGet row ref.rule.property) = .rat xq) :
    (parseStyle cache propName row ref).1
      = .ok ((ref.rule.range.map (fun v => prop.parse (.str v))
            ++ [DEFAULT_STYLES propName]).getD
          (qs.countP (fun b => decide (b ≤ xq))) .undefined) ∧
    ((parseStyle [] "fillColor" [("v", .str "5")]
        ⟨0, ⟨true, "", "v", "interval", ["10", "20"], ["#111", "#222"]⟩⟩).1
      = .ok (parseColorString (.str "#111")) ∧
     (parseStyle [] "fillColor" [("v", .str "15")]
        ⟨0, ⟨true, "", "v", "interval", ["10", "20"], ["#111", "#222"]⟩⟩).1
      = .ok (parseColorString (.str "#222")) ∧
     (parseStyle [] "fillColor" [("v", .str "25")]
        ⟨0, ⟨true, "", "v", "interval", ["10", "20"], ["#111", "#222"]⟩⟩).1
      = .ok (.str "#ff0000")) := by
  refine ⟨?_, by decide, by decide, by decide⟩
  have hqslen : qs.length = ref.rule.domain.length := by
    have := congrArg List.length hdom
    simpa using this.symm
  have hn : min (qs.map JSNum.rat).length
      ((ref.rule.range.map (fun v => prop.parse (.str v))
        ++ [DEFAULT_STYLES propName]).length - 1) = qs.length := by
    simp [hqslen, hlen]
  have htn : toNumber (.num (.rat xq)) = .rat xq := rfl
  simp only [parseStyle, hc, hpr, hf, hfind, hmiss, applyScale, hdom, hx, htn]
  simp only [String.reduceEq, reduceCtorEq, or_false, if_false, if_true, reduceIte]
  rw [hn, bisectRight_sorted_count qs hsort xq]

/-- C2 witness: the general routing applied to the claim's ascending
concrete rule (domain `[10, 20]`) at row value 15 — two breakpoints ≤ 15
never arise, one does, so bucket index 1. -/
theorem interval_threshold_routing_witness :
    (parseStyle [] "fillColor" [("v", .str "15")]
        ⟨0, ⟨true, "", "v", "interval", ["10", "20"], ["#111", "#222"]⟩⟩).1
      = .ok (((["#111", "#222"] : List String).map
            (fun v => parseColorString (.str v))
          ++ [DEFAULT_STYLES "fillColor"]).getD
          (([10, 20] : List ℚ).countP (fun b => decide (b ≤ (15 : ℚ)))) .undefined) :=
  (interval_threshold_routing "fillColor"
      ⟨"fillColor", "color", parseColorString, "Fill color of a polygon or point."⟩
      rfl [("v", .str "15")] []
      ⟨0, ⟨true, "", "v", "interval", ["10", "20"], ["#111", "#222"]⟩⟩
      rfl (by decide) rfl rfl [10, 20] (by decide)
      (by norm_num [List.pairwise_cons]) rfl 15 (by decide)).1

/-- C3: a linear rule (computed, non-empty property, function `linear`)
with ascending numeric breakpoints `qs` (at least two, one per range entry,
any number of segments), resolved with a fresh cache entry at a numeric row
value `x`: a numeric-property range (parsed values `rs`) resolves to
exactly the piecewise-linear interpolation `piecewiseLinear qs rs x` —
segmentwise linear inside the domain, unclamped extrapolation along the
boundary segment's slope outside it — and a color-property range (parsed
to canonical color strings `ss` with RGB channel triples `cols`) resolves
to per-channel RGB interpolation: `piecewiseLinear` of each channel over
the same breakpoints, rendered through the library's channel formatter.
Conjoined: the claim's concrete instances — domain [0, 60], range [2, 24]
gives 13 at 30 and 46 at 120 (extrapolated, not clamped) — and a color
midpoint: domain [0, 10], range [#000, #fff] gives rgb(128, 128, 128)
at 5. -/
theorem linear_scale_interpolation
    (propName : String) (prop : StyleProp)
    (hfind : StyleProps.find? (fun p => p.name == propName) = some prop)
    (row : Row) (cache : ScaleCache) (ref : RuleRef)
    (hc : ref.rule.isComputed = true) (hpr : ref.rule.property ≠ "")
    (hf : ref.rule.function = "linear")
    (hmiss : cacheGet cache ref.id = none)
    (qs : List ℚ)
    (hdom : ref.rule.domain.map (fun v => strToNum v) = qs.map .rat)
    (hsort : List.Pairwise (· < ·) qs)
    (h2 : 2 ≤ qs.length)
    (hlen : ref.rule.domain.length = ref.rule.range.length)
    (xq : ℚ) (hx : toNumber (rowGet row ref.rule.property) = .rat xq) :
    (∀ rs : List ℚ,
      ref.rule.range.map (fun v => prop.parse (.str v))
          = rs.map (fun r => JSVal.num (.rat r)) →
      (parseStyle cache propName row ref).1
        = .ok (.num (.rat (piecewiseLinear qs rs xq)))) ∧
    (∀ (ss : List String) (cols : List (ℚ × ℚ × ℚ)),
      ref.rule.range.map (fun v => prop.parse (.str v)) = ss.map JSVal.str →
      ss.map d3ColorParse = cols.map some →
      (parseStyle cache propName row ref).1
        = .ok (.str (formatRgbChans
            (some (piecewiseLinear qs (cols.map (fun c => c.1)) xq))
            (some (piecewiseLinear qs (cols.map (fun c => c.2.1)) xq))
            (some (piecewiseLinear qs (cols.map (fun c => c.2.2)) xq))))) ∧
    ((parseStyle [] "circleRadius" [("v", .str "30")]
        ⟨0, ⟨true, "", "v", "linear", ["0", "60"], ["2", "24"]⟩⟩).1
      = .ok (.num (.rat 13)) ∧
     (parseStyle [] "circleRadius" [("v", .str "120")]
        ⟨0, ⟨true, "", "v", "linear", ["0", "60"], ["2", "24"]⟩⟩).1
      = .ok (.num (.rat 46)) ∧
     (parseStyle [] "fillColor" [("v", .str "5")]
        ⟨0, ⟨true, "", "v", "linear", ["0", "10"], ["#000", "#fff"]⟩⟩).1
      = .ok (.str "rgb(128, 128, 128)")) := by
  have hqslen : qs.length = ref.rule.domain.length := by
    simpa using (congrArg List.length hdom).symm
  have htn : toNumber (.num (.rat xq)) = .rat xq := rfl
  have hseg1 : segIdx qs xq + 1 < qs.length := segIdx_add_one_lt qs xq h2
  have hseg0 : segIdx qs xq < qs.length := by omega
  refine ⟨?_, ?_, by decide, by decide, by decide⟩
  · intro rsQ hrng
    have hrsl : rsQ.length = qs.length := by
      have h1 := congrArg List.length hrng
      simp at h1
      omega
    simp only [parseStyle, hc, hpr, hf, hfind, hmiss, hdom, hrng, hx, htn,
      applyScale]
    simp only [String.reduceEq, reduceCtorEq, or_false, if_false, reduceIte]
    rw [linearApply_segment qs _ xq hsort (by simp [hrsl]) h2]
    rw [getD_map_lt (fun r => JSVal.num (JSNum.rat r)) rsQ (segIdx qs xq)
          (by omega) 0 JSVal.undefined,
        getD_map_lt (fun r => JSVal.num (JSNum.rat r)) rsQ (segIdx qs xq + 1)
          (by omega) 0 JSVal.undefined]
    simp only [interpValue, interpNum, toNumber, JSNum.jsSub, JSNum.jsNeg,
      JSNum.jsAdd, JSNum.jsMul]
    simp [piecewiseLinear, sub_eq_add_neg]
  · intro ss cols hrng hcols
    have hssl : ss.length = qs.length := by
      have h1 := congrArg List.length hrng
      simp at h1
      omega
    have hcl : cols.length = ss.length := by
      have h1 := congrArg List.length hcols
      simpa using h1.symm
    have hpoint : ∀ k, k < ss.length →
        d3ColorParse (ss.getD k "") = some (cols.getD k (0, 0, 0)) := by
      intro k hk
      have h1 := congrArg
        (fun l : List (Option (ℚ × ℚ × ℚ)) => l.getD k none) hcols
      simp only at h1
      rwa [getD_map_lt d3ColorParse ss k hk "" none,
        getD_map_lt some cols k (by omega) (0, 0, 0) none] at h1
    simp only [parseStyle, hc, hpr, hf, hfind, hmiss, hdom, hrng, hx, htn,
      applyScale]
    simp only [String.reduceEq, reduceCtorEq, or_false, if_false, reduceIte]
    rw [linearApply_segment qs _ xq hsort (by simp [hssl]) h2]
    rw [getD_map_lt JSVal.str ss (segIdx qs xq) (by omega) "" JSVal.undefined,
        getD_map_lt JSVal.str ss (segIdx qs xq + 1) (by omega) "" JSVal.undefined]
    rcases hci : cols.getD (segIdx qs xq) (0, 0, 0) with ⟨ar, ag, av⟩
    rcases hcj : cols.getD (segIdx qs xq + 1) (0, 0, 0) with ⟨br, bg, bv⟩
    have hpi := hpoint (segIdx qs xq) (by omega)
    have hpj := hpoint (segIdx qs xq + 1) (by omega)
    rw [hci] at hpi
    rw [hcj] at hpj
    simp only [interpValue, hpj, d3RgbOfVal, hpi, chanInterp]
    have e1 : (cols.map (fun c => c.1)).getD (segIdx qs xq) 0 = ar := by
      rw [getD_map_lt (fun c : ℚ × ℚ × ℚ => c.1) cols (segIdx qs xq)
        (by omega) (0, 0, 0) 0, hci]
    have e2 : (cols.map (fun c => c.2.1)).getD (segIdx qs xq) 0 = ag := by
      rw [getD_map_lt (fun c : ℚ × ℚ × ℚ => c.2.1) cols (segIdx qs xq)
        (by omega) (0, 0, 0) 0, hci]
    have e3 : (cols.map (fun c => c.2.2)).getD (segIdx qs xq) 0 = av := by
      rw [getD_map_lt (fun c : ℚ × ℚ × ℚ => c.2.2) cols (segIdx qs xq)
        (by omega) (0, 0, 0) 0, hci]
    have e4 : (cols.map (fun c => c.1)).getD (segIdx qs xq + 1) 0 = br := by
      rw [getD_map_lt (fun c : ℚ × ℚ × ℚ => c.1) cols (segIdx qs xq + 1)
        (by omega) (0, 0, 0) 0, hcj]
    have e5 : (cols.map (fun c => c.2.1)).getD (segIdx qs xq + 1) 0 = bg := by
      rw [getD_map_lt (fun c : ℚ × ℚ × ℚ => c.2.1) cols (segIdx qs xq + 1)
        (by omega) (0, 0, 0) 0, hcj]
    have e6 : (cols.map (fun c => c.2.2)).getD (segIdx qs xq + 1) 0 = bv := by
      rw [getD_map_lt (fun c : ℚ × ℚ × ℚ => c.2.2) cols (segIdx qs xq + 1)
        (by omega) (0, 0, 0) 0, hcj]
    simp only [piecewiseLinear]
    rw [e1, e2, e3, e4, e5, e6]

/-- C3 witness: the general numeric piecewise statement applied at the
claim's concrete rule (domain [0, 60], range [2, 24]) and row value 30. -/
theorem linear_scale_interpolation_witness :
    (parseStyle [] "circleRadius" [("v", .str "30")]
        ⟨0, ⟨true, "", "v", "linear", ["0", "60"], ["2", "24"]⟩⟩).1
      = .ok (.num (.rat (piecewiseLinear [0, 60] [2, 24] 30))) :=
  (linear_scale_interpolation "circleRadius"
      ⟨"circleRadius", "number", parseNumber,
        "Radius of the circle representing a point, in pixels."⟩
      rfl [("v", .str "30")] []
      ⟨0, ⟨true, "", "v", "linear", ["0", "60"], ["2", "24"]⟩⟩
      rfl (by decide) rfl rfl [0, 60] (by decide)
      (by norm_num [List.pairwise_cons]) (by norm_num) rfl 30 (by decide)).1
      [2, 24] (by decide)

/-- C9 witness: cache store and idempotent second call for a concrete
categorical rule. -/
theorem scale_cache_reuse_witness :
    (∃ s : Scale, cacheGet
        (parseStyle [] "fillColor" [("h", .str "Good")]
          ⟨7, ⟨true, "", "h", "categorical", ["A"], ["#fff"]⟩⟩).2 7 = some s) ∧
    parseStyle (parseStyle [] "fillColor" [("h", .str "Good")]
        ⟨7, ⟨true, "", "h", "categorical", ["A"], ["#fff"]⟩⟩).2
        "fillColor" [("h", .str "Good")]
        ⟨7, ⟨true, "", "h", "categorical", ["A"], ["#fff"]⟩⟩
      = parseStyle [] "fillColor" [("h", .str "Good")]
          ⟨7, ⟨true, "", "h", "categorical", ["A"], ["#fff"]⟩⟩ :=
  scale_cache_reuse "fillColor"
    ⟨"fillColor", "color", parseColorString, "Fill color of a polygon or point."⟩
    rfl [("h", .str "Good")] [] ⟨7, ⟨true, "", "h", "categorical", ["A"], ["#fff"]⟩⟩
    rfl (by decide) (Or.inl rfl) rfl

end GeoViz
